import Mathlib

/-!
Verification of the anafora evaluation engine (`anafora/eval.py`).

The development embeds the scoring engine shallowly:

* `Scores` with `precision`/`recall`/`f1` mirrors the counter class
  (eval.py lines 14-50); Python float arithmetic is modelled by `Rat`.
* Python sets whose elements carry a custom `__eq__` are modelled as
  insertion-ordered duplicate-free lists (`pyInsert`, `pyMem`), with
  intersection mirroring CPython's `set_intersection`, which always
  iterates over the smaller operand (`pyInter`).
* `overlapSpansEq` mirrors `_OverlappingSpans.__eq__` (lines 86-98),
  and the `WAnn` family together with `wrapGo` mirrors
  `_OverlappingWrapper.__init__` (lines 53-74) over an explicit object
  store, so that the `seen` set of object identities can be modelled.
* `scoreData` mirrors `score_data` (lines 112-175) generically in an
  interface `ScoreIface` providing the element equalities, so that both
  the exact (no wrapper) instantiation and the overlapping-wrapper
  instantiation are obtained from the same driver.
* `scoreDirs` models the per-unit pipeline of `score_dirs`
  (lines 197-234), with load failures of the external XML collaborators
  abstracted into a `LoadOutcome`.
-/

namespace AnaforaEval

/-- Counter triple of the `Scores` class (eval.py lines 14-18).  Python
integers only ever grow here by set sizes, so `Nat` is used. -/
structure Scores where
  reference : Nat
  predicted : Nat
  correct : Nat
deriving DecidableEq

/-- Python `Scores.precision` (eval.py line 36-37): `1.0` if nothing was
predicted, else `correct / float(predicted)`. -/
def Scores.precision (s : Scores) : Rat :=
  if s.predicted = 0 then 1 else (s.correct : Rat) / (s.predicted : Rat)

/-- Python `Scores.recall` (eval.py line 39-40). -/
def Scores.recall (s : Scores) : Rat :=
  if s.reference = 0 then 1 else (s.correct : Rat) / (s.reference : Rat)

/-- Python `Scores.f1` (eval.py line 42-45). -/
def Scores.f1 (s : Scores) : Rat :=
  if s.precision + s.recall = 0 then 0
  else 2 * s.precision * s.recall / (s.precision + s.recall)

/-- Python `Scores.update` (eval.py lines 31-34): pointwise sum. -/
def Scores.update (s other : Scores) : Scores :=
  ⟨s.reference + other.reference, s.predicted + other.predicted,
   s.correct + other.correct⟩

/-! ## Python sets with a custom element equality

The engine stores items in Python `set`s whose elements define `__eq__`
and `__hash__` themselves (and, for the overlapping wrapper, the
equality is not transitive).  A set is modelled as the insertion-ordered
list of its stored representatives: an `add` keeps the set unchanged
when some stored element already compares equal to the new one.
`pyInter` mirrors CPython's `set_intersection`, which iterates over the
smaller of the two operands and keeps the elements of that operand that
are members of the larger one. -/

section PySet

variable {α : Type} (eq : α → α → Bool)

/-- Membership test of Python sets: some stored element compares equal
(the stored element is the left argument of `__eq__`). -/
def pyMem (l : List α) (x : α) : Bool :=
  l.any fun y => eq y x

/-- `set.add`: keep the set unchanged if an equal element is stored. -/
def pyInsert (l : List α) (x : α) : List α :=
  if pyMem eq l x then l else l ++ [x]

/-- `reference & predicted` (CPython iterates the smaller operand). -/
def pyInter (a b : List α) : List α :=
  if b.length ≤ a.length then b.filter (fun x => pyMem eq a x)
  else a.filter (fun x => pyMem eq b x)

/-- `a - b` on Python sets. -/
def pyDiff (a b : List α) : List α :=
  a.filter fun x => !(pyMem eq b x)

end PySet

/-- Python `Scores.add` (eval.py lines 20-29): increment the counters by
the two set sizes and the intersection size, and return the one-sided
differences (used only for diagnostic logging). -/
def Scores.add {α : Type} (eq : α → α → Bool) (s : Scores)
    (reference predicted : List α) : Scores × List α × List α :=
  (⟨s.reference + reference.length, s.predicted + predicted.length,
    s.correct + (pyInter eq reference predicted).length⟩,
   pyDiff eq reference predicted, pyDiff eq predicted reference)

/-! ## Overlapping spans -/

/-- Python `_OverlappingSpans.__eq__` (eval.py lines 90-95): the two
span lists compare equal as soon as any span of one strictly overlaps
any span of the other. -/
def overlapSpansEq (xs ys : List (Int × Int)) : Bool :=
  xs.any fun a => ys.any fun b => a.1 < b.2 && b.1 < a.2

/-! ## Deterministic sorting of group keys

`score_data` iterates `sorted(groups)` and `sorted(prop_groups)`.  The
keys are strings (type names) and tuples of strings (fact names); the
comparisons below mirror Python's lexicographic string and tuple order
(by Unicode code point).  Only determinism of the iteration order
matters for the theorems. -/

/-- Code-point-wise lexicographic strict order on character lists. -/
def charsLt : List Char → List Char → Bool
  | [], [] => false
  | [], _ :: _ => true
  | _ :: _, [] => false
  | a :: as, b :: bs =>
      if a.toNat < b.toNat then true
      else if b.toNat < a.toNat then false
      else charsLt as bs

/-- Python `<` on strings. -/
def strLt (a b : String) : Bool := charsLt a.data b.data

/-- Python `<` on tuples of strings (shorter prefixes come first). -/
def strListLt : List String → List String → Bool
  | [], [] => false
  | [], _ :: _ => true
  | _ :: _, [] => false
  | a :: as, b :: bs =>
      if strLt a b then true else if strLt b a then false else strListLt as bs

/-- Stable insertion into a list sorted by the strict order `lt`. -/
def insertSorted {κ : Type} (lt : κ → κ → Bool) (x : κ) : List κ → List κ
  | [] => [x]
  | y :: ys => if lt x y then x :: y :: ys else y :: insertSorted lt x ys

/-- Python `sorted` over the group keys. -/
def sortKeys {κ : Type} (lt : κ → κ → Bool) (l : List κ) : List κ :=
  l.foldr (insertSorted lt) []

/-! ## Grouping (`_group_by`, eval.py lines 104-109)

`_group_by` walks first the whole reference iterable and then the whole
predicted iterable, adding each item to the side of its key's bucket
(creating the bucket with two empty sets on first contact).  Buckets are
kept in creation order, as an association list. -/

section Group

variable {α κ : Type} [DecidableEq κ] (eq : α → α → Bool) (key : α → κ)

/-- Add one reference item to its bucket (index 0 of the pair). -/
def bucketRef : List (κ × List α × List α) → α → List (κ × List α × List α)
  | [], x => [(key x, pyInsert eq [] x, [])]
  | (k, r, p) :: rest, x =>
      if k = key x then (k, pyInsert eq r x, p) :: rest
      else (k, r, p) :: bucketRef rest x

/-- Add one predicted item to its bucket (index 1 of the pair). -/
def bucketPred : List (κ × List α × List α) → α → List (κ × List α × List α)
  | [], x => [(key x, [], pyInsert eq [] x)]
  | (k, r, p) :: rest, x =>
      if k = key x then (k, r, pyInsert eq p x) :: rest
      else (k, r, p) :: bucketPred rest x

/-- Python `_group_by(reference_iterable, predicted_iterable, key)`. -/
def groupBy (refs preds : List α) : List (κ × List α × List α) :=
  preds.foldl (bucketPred eq key) (refs.foldl (bucketRef eq key) [])

end Group

/-- Reference side of the bucket stored under `k` (empty if absent). -/
def refSide {α κ : Type} [DecidableEq κ]
    (bs : List (κ × List α × List α)) (k : κ) : List α :=
  match bs.find? (fun e => decide (e.1 = k)) with
  | some e => e.2.1
  | none => []

/-- Predicted side of the bucket stored under `k` (empty if absent). -/
def predSide {α κ : Type} [DecidableEq κ]
    (bs : List (κ × List α × List α)) (k : κ) : List α :=
  match bs.find? (fun e => decide (e.1 = k)) with
  | some e => e.2.2
  | none => []

/-- Dictionary access `groups[k]` used by `score_data`. -/
def lookupGroup {α κ : Type} [DecidableEq κ]
    (bs : List (κ × List α × List α)) (k : κ) : List α × List α :=
  match bs.find? (fun e => decide (e.1 = k)) with
  | some e => e.2
  | none => ([], [])

/-! ## Include/exclude filter keys and result keys -/

/-- An entry of the `include`/`exclude` sets: a bare type name, a
`(type, property)` pair, or a `(type, property, value)` triple, as
produced by the colon-splitting command line parser. -/
inductive FKey where
  | typ (t : String)
  | tp (t p : String)
  | tpv (t p v : String)
deriving DecidableEq

/-- A key of the result mapping: a bare type name (a Python string) or
a fact name (a Python tuple of strings); the two are never equal. -/
inductive SKey where
  | typ (t : String)
  | tup (n : List String)
deriving DecidableEq

/-- Check `type_name in include` (matches only bare-string entries). -/
def hasTyp (l : List FKey) (t : String) : Bool :=
  l.any fun k => match k with
    | .typ t' => t' == t
    | _ => false

/-- Check `(type_name, prop_name) in include`; `prop_name` may be the
Python `None` (then no string pair matches). -/
def hasTP (l : List FKey) (t : String) (pn : Option String) : Bool :=
  match pn with
  | none => false
  | some p => l.any fun k => match k with
      | .tp t' p' => t' == t && p' == p
      | _ => false

/-- Check `(type_name, prop_name, prop_value) in include`; the stored
value entries are strings, so the property value matches only when it
is itself an equal string (`peqStr` decides that). -/
def hasTPV {π : Type} (peqStr : π → String → Bool) (l : List FKey)
    (t : String) (pn : Option String) (pv : Option π) : Bool :=
  match pn, pv with
  | some p, some v => l.any fun k => match k with
      | .tpv t' p' v' => t' == t && p' == p && peqStr v v'
      | _ => false
  | _, _ => false

/-- Python `_accept` (eval.py lines 124-137): with an `include` set the
key must match at one of the three granularities; matching the
`exclude` set at any granularity rejects. -/
def accept {π : Type} (peqStr : π → String → Bool)
    (inc exc : Option (List FKey)) (t : String)
    (pn : Option String) (pv : Option π) : Bool :=
  (match inc with
   | none => true
   | some l => hasTyp l t || hasTP l t pn || hasTPV peqStr l t pn pv) &&
  (match exc with
   | none => true
   | some l => !hasTyp l t && !hasTP l t pn && !hasTPV peqStr l t pn pv)

/-! ## Facts (`_props`, eval.py lines 139-151) -/

/-- A comparable fact: the span-presence tuple `(spans, name)` or a
property tuple `(spans, name, value)`; tuples of different lengths are
never equal.  The name component is the Python tuple of strings
`(type, "<span>")`, `(type, prop)` or `(type, prop, value)`. -/
inductive GFact (σ π : Type) where
  | spanF (sp : σ) (name : List String)
  | propF (sp : σ) (name : List String) (v : π)

/-- The grouping key `t[1]` of a fact: its name tuple. -/
def factName {σ π : Type} : GFact σ π → List String
  | .spanF _ n => n
  | .propF _ n _ => n

/-- Tuple equality on facts: lengths must agree, the name tuple is
compared exactly, spans and values by the active element equalities. -/
def factEq {σ π : Type} (seq : σ → σ → Bool) (peq : π → π → Bool) :
    GFact σ π → GFact σ π → Bool
  | .spanF s1 n1, .spanF s2 n2 => seq s1 s2 && n1 == n2
  | .propF s1 n1 v1, .propF s2 n2 v2 => seq s1 s2 && n1 == n2 && peq v1 v2
  | _, _ => false

/-- Everything `score_data` reads from one annotated item: the set
equality, the type name, the spans object, the property list in
iteration order, the equalities of spans and of property values, and
the string view of a property value (`isinstance(value, basestring)`). -/
structure ScoreIface (α σ π : Type) where
  aeq : α → α → Bool
  typeOf : α → String
  spansOf : α → σ
  propsOf : α → List (String × π)
  seq : σ → σ → Bool
  peq : π → π → Bool
  strOf : π → Option String
  peqStr : π → String → Bool

/-- The facts contributed by one item (`_props` loop body): the
span-presence fact, one property fact per property, and one value fact
per string-valued property, each guarded by `_accept`. -/
def annFacts {α σ π : Type} (I : ScoreIface α σ π)
    (inc exc : Option (List FKey)) (acc : List (GFact σ π)) (a : α) :
    List (GFact σ π) :=
  let sp := I.spansOf a
  let t := I.typeOf a
  let feq := factEq I.seq I.peq
  let acc :=
    if accept I.peqStr inc exc t (some "<span>") none then
      pyInsert feq acc (.spanF sp [t, "<span>"])
    else acc
  (I.propsOf a).foldl (fun acc pv =>
    let acc :=
      if accept I.peqStr inc exc t (some pv.1) none then
        pyInsert feq acc (.propF sp [t, pv.1] pv.2)
      else acc
    match I.strOf pv.2 with
    | some s =>
        if accept I.peqStr inc exc t (some pv.1) (some pv.2) then
          pyInsert feq acc (.propF sp [t, pv.1, s] pv.2)
        else acc
    | none => acc) acc

/-- Python `_props(anns)`: the set of facts of all items. -/
def propsOfAnns {α σ π : Type} (I : ScoreIface α σ π)
    (inc exc : Option (List FKey)) (anns : List α) : List (GFact σ π) :=
  anns.foldl (annFacts I inc exc) []

/-! ## The scoring driver (`score_data`, eval.py lines 112-175) -/

/-- Read `result[k]` of the defaultdict (a fresh zero on first use). -/
def getScores (res : List (SKey × Scores)) (k : SKey) : Scores :=
  match res.find? (fun e => decide (e.1 = k)) with
  | some e => e.2
  | none => ⟨0, 0, 0⟩

/-- Store `result[k]` back into the defaultdict. -/
def setScores (res : List (SKey × Scores)) (k : SKey) (s : Scores) :
    List (SKey × Scores) :=
  if res.any (fun e => decide (e.1 = k)) then
    res.map fun e => if e.1 = k then (k, s) else e
  else res ++ [(k, s)]

/-- The body of the `for ann_type in sorted(groups)` loop: score the
bare type when it passes the filter, then extract and group the facts
of the two annotation sets and score each fact name. -/
def scoreStepType {α σ π : Type} (I : ScoreIface α σ π)
    (inc exc : Option (List FKey))
    (groups : List (String × List α × List α))
    (res : List (SKey × Scores)) (t : String) : List (SKey × Scores) :=
  let feq := factEq I.seq I.peq
  let rp := lookupGroup groups t
  let res :=
    if accept I.peqStr inc exc t none none then
      setScores res (.typ t) ((Scores.add I.aeq (getScores res (.typ t)) rp.1 rp.2).1)
    else res
  let refFacts := propsOfAnns I inc exc rp.1
  let predFacts := propsOfAnns I inc exc rp.2
  let pg := groupBy feq factName refFacts predFacts
  (sortKeys strListLt (pg.map Prod.fst)).foldl (fun res n =>
    let rpt := lookupGroup pg n
    setScores res (.tup n) ((Scores.add feq (getScores res (.tup n)) rpt.1 rpt.2).1)) res

/-- Python `score_data(reference_data, predicted_data, include,
exclude, ...)`: an absent predicted document stands for an empty
predicted collection; items are grouped by type and processed in
sorted order. -/
def scoreData {α σ π : Type} (I : ScoreIface α σ π) (refs : List α)
    (predOpt : Option (List α)) (inc exc : Option (List FKey)) :
    List (SKey × Scores) :=
  let preds := match predOpt with
    | none => []
    | some l => l
  let groups := groupBy I.aeq I.typeOf refs preds
  (sortKeys strLt (groups.map Prod.fst)).foldl (scoreStepType I inc exc groups) []

/-! ## The exact (default) instantiation

The annotation object model itself lives in the external `anafora`
package, outside the scoring engine.  Modelled from the spec: an
Annotation Record is a type name, an ordered span list and an ordered
mapping from property names to values, where a value is a string, a
number or another annotation record; the Exact equivalence is the
structural equality over these components. -/

mutual
inductive RawAnn where
  | mk (type_ : String) (spans : List (Int × Int)) (props : RProps)
inductive RProps where
  | nil
  | cons (name : String) (v : PropValue) (rest : RProps)
inductive PropValue where
  | pstr (s : String)
  | pnum (n : Int)
  | pann (a : RawAnn)
end

deriving instance DecidableEq for RawAnn, RProps, PropValue

/-- Type name of a raw record. -/
def RawAnn.type_ : RawAnn → String
  | .mk t _ _ => t

/-- Span list of a raw record. -/
def RawAnn.spans : RawAnn → List (Int × Int)
  | .mk _ sp _ => sp

/-- Property list of a raw record, in iteration order. -/
def RawAnn.propList : RawAnn → List (String × PropValue)
  | .mk _ _ ps => go ps
where
  go : RProps → List (String × PropValue)
    | .nil => []
    | .cons n v rest => (n, v) :: go rest

/-- String view of a property value (`isinstance(value, basestring)`). -/
def PropValue.strOf : PropValue → Option String
  | .pstr s => some s
  | _ => none

/-- Equality of a property value against a filter-entry string. -/
def PropValue.eqStr : PropValue → String → Bool
  | .pstr s, c => s == c
  | _, _ => false

/-- The exact (default, no wrapper) interface: structural equality on
records, spans and values. -/
def exactIface : ScoreIface RawAnn (List (Int × Int)) PropValue where
  aeq a b := a == b
  typeOf := RawAnn.type_
  spansOf := RawAnn.spans
  propsOf := RawAnn.propList
  seq a b := a == b
  peq a b := a == b
  strOf := PropValue.strOf
  peqStr := PropValue.eqStr

/-- `score_data` under the default Exact equivalence. -/
def scoreDataExact (refs : List RawAnn) (predOpt : Option (List RawAnn))
    (inc exc : Option (List FKey)) : List (SKey × Scores) :=
  scoreData exactIface refs predOpt inc exc

/-! ## The C1 scenario -/

/-- Reference document of the scenario: one `Person` record spanning
`(0,5)` with property `name="Alice"`. -/
def refC1 : List RawAnn :=
  [.mk "Person" [(0, 5)] (.cons "name" (.pstr "Alice") .nil)]

/-- Predicted document of the scenario: one `Person` record spanning
`(0,5)` with property `name="Bob"`. -/
def predC1 : List RawAnn :=
  [.mk "Person" [(0, 5)] (.cons "name" (.pstr "Bob") .nil)]

/-- The result mapping of the scenario. -/
def resC1 : List (SKey × Scores) := scoreDataExact refC1 (some predC1) none none

/-! ## The overlapping wrapper (`_OverlappingWrapper`, eval.py 53-83)

The wrapper copies `type`, `parents_type` and the spans (an
`_OverlappingSpans` for an entity, a tuple of them for a relation) and
rebuilds the property mapping, recursively wrapping property values
that are themselves annotated records.  A `seen` set of object
identities guards the recursion: a property whose value was already
seen is left out of the rebuilt mapping.  The Python object graph is
modelled as a store of nodes (`GAnn`) addressed by index, each value
carrying its object identity, so that shared and cyclic references are
expressible. -/

/-- Spans of a stored node: one span list for an entity, one list per
argument slot for a relation. -/
inductive GSpans where
  | ent (s : List (Int × Int))
  | rel (s : List (List (Int × Int)))

/-- A property value in the object store: a string or number carrying
its object identity, or a reference to another node (whose identity is
its index). -/
inductive GVal where
  | vstr (oid : Nat) (s : String)
  | vnum (oid : Nat) (n : Int)
  | vann (node : Nat)

/-- A node of the object store: one annotated record. -/
structure GAnn where
  type_ : String
  parentsType : String
  spans : GSpans
  props : List (String × GVal)

/-- The Python `id(value)` of a stored value. -/
def gvalId : GVal → Nat
  | .vstr oid _ => oid
  | .vnum oid _ => oid
  | .vann node => node

/-- The wrapped spans: `_OverlappingSpans(spans)` for an entity,
`tuple(map(_OverlappingSpans, spans))` for a relation. -/
inductive WSpans where
  | ent (s : List (Int × Int))
  | rel (s : List (List (Int × Int)))

mutual
/-- A wrapper object produced by `_OverlappingWrapper.__init__`: the
copied type and parents-type, the wrapped spans, and the rebuilt
property mapping whose values are raw scalars or nested wrappers. -/
inductive WAnn where
  | mk (type_ : String) (parentsType : String) (sp : WSpans) (props : WProps)
/-- The rebuilt property mapping of a wrapper, in insertion order. -/
inductive WProps where
  | nil
  | cons (name : String) (v : WVal) (rest : WProps)
/-- A rebuilt property value: a raw scalar or a nested wrapper. -/
inductive WVal where
  | wstr (s : String)
  | wnum (n : Int)
  | wann (a : WAnn)
end

mutual
/-- Nesting depth of a wrapper (bounds the `__eq__` recursion). -/
def WAnn.depth : WAnn → Nat
  | .mk _ _ _ ps => WProps.depth ps + 1
/-- Nesting depth of a wrapped property mapping. -/
def WProps.depth : WProps → Nat
  | .nil => 0
  | .cons _ v rest => max (WVal.depth v) (WProps.depth rest)
/-- Nesting depth of a wrapped property value. -/
def WVal.depth : WVal → Nat
  | .wann a => WAnn.depth a
  | _ => 0
end

/-- Type name copied onto the wrapper. -/
def WAnn.typeOf : WAnn → String
  | .mk t _ _ _ => t

/-- Wrapped spans of the wrapper. -/
def WAnn.wspans : WAnn → WSpans
  | .mk _ _ sp _ => sp

/-- Rebuilt property mapping of the wrapper. -/
def WAnn.wprops : WAnn → WProps
  | .mk _ _ _ ps => ps

/-- The wrapper's property mapping as a list in insertion order. -/
def WProps.toList : WProps → List (String × WVal)
  | .nil => []
  | .cons n v rest => (n, v) :: toList rest

/-- Number of entries of a wrapped property mapping. -/
def WProps.len : WProps → Nat
  | .nil => 0
  | .cons _ _ rest => len rest + 1

/-- Equality of wrapped spans: entity spans compare by strict overlap,
relation spans componentwise (tuple equality); an entity never equals a
relation. -/
def wspansEq : WSpans → WSpans → Bool
  | .ent a, .ent b => overlapSpansEq a b
  | .rel a, .rel b =>
      a.length == b.length && (a.zip b).all fun p => overlapSpansEq p.1 p.2
  | _, _ => false

/-- Value lookup in a wrapped property mapping (dict access). -/
def wlookup (n : String) : WProps → Option WVal
  | .nil => none
  | .cons n' v rest => if n' == n then some v else wlookup n rest

/-- Find the entry named `n` in the other mapping and compare values
with `vEq` (one step of Python dict equality). -/
def wfindEqC (vEq : WVal → WVal → Bool) (n : String) (v : WVal) :
    WProps → Bool
  | .nil => false
  | .cons n' v' rest => if n' == n then vEq v v' else wfindEqC vEq n v rest

/-- Each entry of the first mapping matches the entry of the same name
in the second (with dict keys unique, together with equal lengths this
is Python dict equality). -/
def wpropsSubC (vEq : WVal → WVal → Bool) : WProps → WProps → Bool
  | .nil, _ => true
  | .cons n v rest, p2 => wfindEqC vEq n v p2 && wpropsSubC vEq rest p2

/-- Python `==` on wrapped property values: strings and numbers by
value, nested wrappers by the given wrapper equality, mixed kinds are
unequal. -/
def wvalEqC (aEq : WAnn → WAnn → Bool) : WVal → WVal → Bool
  | .wstr a, .wstr b => a == b
  | .wnum a, .wnum b => a == b
  | .wann a, .wann b => aEq a b
  | _, _ => false

/-- Fuelled `_OverlappingWrapper.__eq__` (eval.py lines 73-77): the
`_key` tuples `(spans, type, parents_type, properties)` are compared
componentwise, recursing into wrapped property values.  The fuel only
bounds the nesting depth of the recursion; `wannEq` supplies more fuel
than the structural depth of its arguments, so it never runs out. -/
def wannEqF : Nat → WAnn → WAnn → Bool
  | 0, _, _ => false
  | fuel + 1, .mk t1 pt1 s1 p1, .mk t2 pt2 s2 p2 =>
      wspansEq s1 s2 && t1 == t2 && pt1 == pt2 &&
      WProps.len p1 == WProps.len p2 &&
      wpropsSubC (wvalEqC (wannEqF fuel)) p1 p2

/-- `_OverlappingWrapper.__eq__` with sufficient fuel: every recursive
comparison descends into a nested wrapper of the left argument, so its
nesting depth bounds the recursion. -/
def wannEq (a b : WAnn) : Bool :=
  wannEqF (WAnn.depth a + 1) a b

/-- String view of a wrapped property value. -/
def wvalStrOf : WVal → Option String
  | .wstr s => some s
  | _ => none

/-- Equality of a wrapped property value against a filter string. -/
def wvalEqStr : WVal → String → Bool
  | .wstr s, c => s == c
  | _, _ => false

/-- The interface of wrapped records, as read by `score_data` when the
`--overlap` wrapper is active. -/
def overlapIface : ScoreIface WAnn WSpans WVal where
  aeq := wannEq
  typeOf := WAnn.typeOf
  spansOf := WAnn.wspans
  propsOf := fun w => WProps.toList w.wprops
  seq := wspansEq
  peq := wvalEqC wannEq
  strOf := wvalStrOf
  peqStr := wvalEqStr

/-- `score_data` over two collections of wrapped records. -/
def scoreDataOverlap (refs preds : List WAnn) (inc exc : Option (List FKey)) :
    List (SKey × Scores) :=
  scoreData overlapIface refs (some preds) inc exc

/-! ## Wrapper construction over the object store -/

/-- The property-rebuilding loop of `_OverlappingWrapper.__init__`
(eval.py lines 64-71): a value whose identity is in `seen` is skipped
(its property is left out); otherwise its identity is added to `seen`
and an annotated value is wrapped recursively (through the callback
`recAnn`, which also returns the grown `seen`), while a scalar value is
stored as is.  The `seen` set is threaded left to right, mirroring the
mutation of the shared Python set. -/
def wrapProps (recAnn : Nat → List Nat → Option (WAnn × List Nat)) :
    List (String × GVal) → List Nat → Option (WProps × List Nat)
  | [], seen => some (.nil, seen)
  | (n, v) :: rest, seen =>
      if gvalId v ∈ seen then wrapProps recAnn rest seen
      else
        match v with
        | .vann j =>
            match recAnn j (j :: seen) with
            | some (w, seen2) =>
                match wrapProps recAnn rest seen2 with
                | some (ps, seen3) => some (.cons n (.wann w) ps, seen3)
                | none => none
            | none => none
        | .vstr oid s =>
            match wrapProps recAnn rest (oid :: seen) with
            | some (ps, seen3) => some (.cons n (.wstr s) ps, seen3)
            | none => none
        | .vnum oid m =>
            match wrapProps recAnn rest (oid :: seen) with
            | some (ps, seen3) => some (.cons n (.wnum m) ps, seen3)
            | none => none

/-- The wrapped spans of a stored node. -/
def wrapGSpans : GSpans → WSpans
  | .ent s => .ent s
  | .rel s => .rel s

/-- `_OverlappingWrapper(annotated-node, seen)` over the store.  The
fuel only bounds the recursion depth; every recursive call strictly
grows `seen` by a fresh node index, so `store.length + 1` is always
enough (proved below). -/
def wrapGo (store : List GAnn) : Nat → Nat → List Nat → Option (WAnn × List Nat)
  | 0, _, _ => none
  | fuel + 1, i, seen =>
      match store[i]? with
      | none => none
      | some a =>
          match wrapProps (wrapGo store fuel) a.props seen with
          | some (ps, seen') =>
              some (.mk a.type_ a.parentsType (wrapGSpans a.spans) ps, seen')
          | none => none

/-- Top-level wrapping of node `i` (Python starts with `seen = set()`). -/
def wrapAnn (store : List GAnn) (i : Nat) : Option WAnn :=
  (wrapGo store (store.length + 1) i []).map Prod.fst

/-- A stored value is well formed when a node reference stays inside a
store of `len` nodes (scalars always are). -/
def gvalWF (len : Nat) : GVal → Bool
  | .vann j => decide (j < len)
  | _ => true

/-- A well-formed store: every node-valued property refers to a node
inside the store (a live Python object cannot dangle). -/
def WFStore (store : List GAnn) : Prop :=
  ∀ a ∈ store, ∀ nv ∈ a.props, gvalWF store.length nv.2 = true

/-- Number of store indices not yet in `seen`: the measure that shrinks
at every recursive wrapping step. -/
def unseenCnt (store : List GAnn) (seen : List Nat) : Nat :=
  ((List.range store.length).filter (fun j => decide (j ∉ seen))).length

/-- Follow a chain of node-valued properties inside a wrapper. -/
def drillAnn (w : WAnn) : List String → Option WAnn
  | [] => some w
  | n :: rest =>
      match wlookup n w.wprops with
      | some (.wann b) => drillAnn b rest
      | _ => none

/-- A two-node cyclic store: node 0 (`A`) has property `p` referring to
node 1 (`B`), and node 1 has property `q` referring back to node 0 plus
a scalar property `r`. -/
def cycStore : List GAnn :=
  [⟨"A", "", .ent [(0, 1)], [("p", .vann 1)]⟩,
   ⟨"B", "", .ent [(2, 3)], [("q", .vann 0), ("r", .vstr 100 "hello")]⟩]

/-! ## The directory-pair corpus driver (`score_dirs`, eval.py 197-234)

File discovery, XML parsing and schema validation are external
collaborators; their outcome for one document unit is abstracted as a
`LoadOutcome`.  `parsed anns` stands for a file that exists, parses,
and yields `anns` after the iterative invalid-annotation pruning of
`_load_and_remove_errors`. -/

/-- Outcome of the external loading collaborators for one XML file. -/
inductive LoadOutcome where
  | missing
  | unparsable
  | parsed (anns : List RawAnn)

/-- Python `_load_and_remove_errors` (eval.py lines 178-194): a missing
or unparsable file is logged and reported as `None`; otherwise the
pruned document is returned. -/
def loadAndRemoveErrors : LoadOutcome → Option (List RawAnn)
  | .missing => none
  | .unparsable => none
  | .parsed anns => some anns

/-- One document unit of the corpus walk: the reference file names
listed for the unit, the glob matches on the predicted side, and the
two load outcomes. -/
structure CorpusUnit where
  refNames : List String
  refOutcome : LoadOutcome
  predPaths : List String
  predOutcome : LoadOutcome

/-- The `[path] = paths` unpacking with its `except ValueError` handler
(eval.py lines 212-216 and 220-224): a single candidate is taken; with
several candidates a warning is logged and the first is taken; with no
candidate the handler itself evaluates `paths[0]` and raises
`IndexError`. -/
def pickFirst (paths : List String) : Except String String :=
  match paths with
  | [p] => .ok p
  | [] => .error "IndexError"
  | p :: _ :: _ => .ok p

/-- The entry of `score_data` (eval.py lines 153-155): only the
predicted document may be `None`; an absent reference document hits
`reference_data.annotations` and raises `AttributeError`. -/
def scoreDataTop (refOpt predOpt : Option (List RawAnn))
    (inc exc : Option (List FKey)) : Except String (List (SKey × Scores)) :=
  match refOpt with
  | none => .error "AttributeError"
  | some refs => .ok (scoreDataExact refs predOpt inc exc)

/-- Fold one unit's named scores into the corpus totals
(`result[name].update(scores)`, eval.py lines 231-232). -/
def updateAll (res named : List (SKey × Scores)) : List (SKey × Scores) :=
  named.foldl (fun res e => setScores res e.1 ((getScores res e.1).update e.2)) res

/-- One iteration of the `score_dirs` walk: pick the reference file,
pick the predicted file, load both, score, and fold into the totals;
any raised exception aborts the remaining units. -/
def scoreDirsStep (inc exc : Option (List FKey))
    (acc : Except String (List (SKey × Scores))) (u : CorpusUnit) :
    Except String (List (SKey × Scores)) :=
  match acc with
  | .error e => .error e
  | .ok res =>
      match pickFirst u.refNames with
      | .error e => .error e
      | .ok _ =>
          match pickFirst u.predPaths with
          | .error e => .error e
          | .ok _ =>
              match scoreDataTop (loadAndRemoveErrors u.refOutcome)
                  (loadAndRemoveErrors u.predOutcome) inc exc with
              | .error e => .error e
              | .ok named => .ok (updateAll res named)

/-- Python `score_dirs` over the abstracted corpus walk. -/
def scoreDirs (units : List CorpusUnit) (inc exc : Option (List FKey)) :
    Except String (List (SKey × Scores)) :=
  units.foldl (scoreDirsStep inc exc) (.ok [])

/-! ## Helper lemmas -/

/-- A predicate preserved by every step of a left fold holds of the
result. -/
theorem foldl_preserves {β γ : Type} (P : β → Prop) (f : β → γ → β)
    (hf : ∀ b x, P b → P (f b x)) :
    ∀ (l : List γ) (b : β), P b → P (l.foldl f b)
  | [], _, hb => hb
  | x :: xs, b, hb => foldl_preserves P f hf xs (f b x) (hf b x hb)

/-- CPython's intersection never exceeds its left operand. -/
theorem pyInter_length_le_left {α : Type} (eq : α → α → Bool)
    (a b : List α) : (pyInter eq a b).length ≤ a.length := by
  unfold pyInter
  split
  · exact le_trans (List.length_filter_le _ _) (by assumption)
  · exact List.length_filter_le _ _

/-- CPython's intersection never exceeds its right operand. -/
theorem pyInter_length_le_right {α : Type} (eq : α → α → Bool)
    (a b : List α) : (pyInter eq a b).length ≤ b.length := by
  unfold pyInter
  split
  · exact List.length_filter_le _ _
  · exact le_trans (List.length_filter_le _ _) (Nat.le_of_lt (Nat.lt_of_not_le (by assumption)))

/-- A pointwise property of the stored scores holds of a defaultdict
read, provided it holds of the fresh zero. -/
theorem getScores_inv (Φ : Scores → Prop) (h0 : Φ ⟨0, 0, 0⟩)
    (res : List (SKey × Scores)) (h : ∀ e ∈ res, Φ e.2) (k : SKey) :
    Φ (getScores res k) := by
  unfold getScores
  split
  · next e he => exact h e (List.mem_of_find?_eq_some he)
  · exact h0

/-- A pointwise property of the stored scores is preserved by a store
of a value that satisfies it. -/
theorem setScores_inv (Φ : Scores → Prop) (res : List (SKey × Scores))
    (k : SKey) (s : Scores) (h : ∀ e ∈ res, Φ e.2) (hs : Φ s) :
    ∀ e ∈ setScores res k s, Φ e.2 := by
  unfold setScores
  split
  · intro e he
    obtain ⟨e', he', rfl⟩ := List.mem_map.mp he
    by_cases hk : e'.1 = k
    · simp only [hk, if_pos rfl]
      exact hs
    · simp only [if_neg hk]
      exact h e' he'
  · intro e he
    rcases List.mem_append.mp he with h1 | h2
    · exact h e h1
    · rcases List.mem_singleton.mp h2 with rfl
      exact hs

/-- One `Scores.add` keeps `correct` below both counters. -/
theorem scoresAdd_le {α : Type} (eq : α → α → Bool) (s : Scores)
    (a b : List α) (h : s.correct ≤ s.reference ∧ s.correct ≤ s.predicted) :
    (Scores.add eq s a b).1.correct ≤ (Scores.add eq s a b).1.reference ∧
    (Scores.add eq s a b).1.correct ≤ (Scores.add eq s a b).1.predicted :=
  ⟨Nat.add_le_add h.1 (pyInter_length_le_left eq a b),
   Nat.add_le_add h.2 (pyInter_length_le_right eq a b)⟩

/-- One step of the type loop keeps `correct` below both counters. -/
theorem scoreStepType_le {α σ π : Type} (I : ScoreIface α σ π)
    (inc exc : Option (List FKey)) (groups : List (String × List α × List α))
    (res : List (SKey × Scores)) (t : String)
    (h : ∀ e ∈ res, e.2.correct ≤ e.2.reference ∧ e.2.correct ≤ e.2.predicted) :
    ∀ e ∈ scoreStepType I inc exc groups res t,
      e.2.correct ≤ e.2.reference ∧ e.2.correct ≤ e.2.predicted := by
  unfold scoreStepType
  dsimp only
  refine foldl_preserves
    (fun res : List (SKey × Scores) =>
      ∀ e ∈ res, e.2.correct ≤ e.2.reference ∧ e.2.correct ≤ e.2.predicted)
    _ ?_ _ _ ?_
  · intro b n hb
    exact setScores_inv (fun s => s.correct ≤ s.reference ∧ s.correct ≤ s.predicted) _ _ _ hb
      (scoresAdd_le _ _ _ _
        (getScores_inv (fun s => s.correct ≤ s.reference ∧ s.correct ≤ s.predicted)
          ⟨Nat.le_refl 0, Nat.le_refl 0⟩ _ hb _))
  · split
    · exact setScores_inv (fun s => s.correct ≤ s.reference ∧ s.correct ≤ s.predicted) _ _ _ h
        (scoresAdd_le _ _ _ _
          (getScores_inv (fun s => s.correct ≤ s.reference ∧ s.correct ≤ s.predicted)
            ⟨Nat.le_refl 0, Nat.le_refl 0⟩ _ h _))
    · exact h

/-- Every entry of any `scoreData` result satisfies
`correct ≤ reference` and `correct ≤ predicted`, whatever the element
equality is: CPython's set intersection iterates the smaller operand,
so each `Scores.add` is bounded even for the non-transitive overlap
equality. -/
theorem scoreData_correct_le {α σ π : Type} (I : ScoreIface α σ π)
    (refs : List α) (predOpt : Option (List α)) (inc exc : Option (List FKey)) :
    ∀ e ∈ scoreData I refs predOpt inc exc,
      e.2.correct ≤ e.2.reference ∧ e.2.correct ≤ e.2.predicted := by
  unfold scoreData
  dsimp only
  refine foldl_preserves
    (fun res : List (SKey × Scores) =>
      ∀ e ∈ res, e.2.correct ≤ e.2.reference ∧ e.2.correct ≤ e.2.predicted)
    _ ?_ _ _ ?_
  · intro b t hb
    exact scoreStepType_le I inc exc _ b t hb
  · intro e he
    cases he

/-- C6 counterexample.  There is no pair of wrapped collections (and no
filters) for which some key's accumulated `correct` exceeds
`min(reference, predicted)`: each Python set intersection is computed
by iterating the smaller operand, so its size never exceeds either set
size, even though overlap equality is not transitive. -/
theorem c6_no_excess_counterexample :
    ¬ ∃ (refs preds : List WAnn) (inc exc : Option (List FKey))
        (e : SKey × Scores),
        e ∈ scoreDataOverlap refs preds inc exc ∧
        min e.2.reference e.2.predicted < e.2.correct := by
  rintro ⟨refs, preds, inc, exc, e, he, hlt⟩
  have h := scoreData_correct_le overlapIface refs (some preds) inc exc e he
  exact absurd (le_min h.1 h.2) (Nat.not_le_of_lt hlt)

/-- C6 (amended).  Even when the Overlapping equivalence strategy is
active, every key of a `score_data` result satisfies
`correct ≤ min(reference, predicted)`: the non-transitivity of overlap
shows up in which elements survive set deduplication, not in an excess
of the intersection count. -/
theorem c6_correct_le_min (refs preds : List WAnn)
    (inc exc : Option (List FKey)) (e : SKey × Scores)
    (he : e ∈ scoreDataOverlap refs preds inc exc) :
    e.2.correct ≤ min e.2.reference e.2.predicted := by
  have h := scoreData_correct_le overlapIface refs (some preds) inc exc e he
  exact le_min h.1 h.2

/-- Witness for C6 (amended): two reference entities both overlapping
one predicted entity give the `T` key `(2,1,1)`, and `1 ≤ min 2 1`. -/
theorem c6_correct_le_min_witness :
    (⟨2, 1, 1⟩ : Scores).correct ≤
      min (⟨2, 1, 1⟩ : Scores).reference (⟨2, 1, 1⟩ : Scores).predicted :=
  c6_correct_le_min
    [.mk "T" "" (.ent [(0, 10)]) .nil, .mk "T" "" (.ent [(20, 30)]) .nil]
    [.mk "T" "" (.ent [(5, 25)]) .nil] none none
    (SKey.typ "T", ⟨2, 1, 1⟩) (by decide)

/-- Reading the bucket pair under `k` is reading the two sides. -/
theorem lookupGroup_eq {α κ : Type} [DecidableEq κ]
    (bs : List (κ × List α × List α)) (k : κ) :
    lookupGroup bs k = (refSide bs k, predSide bs k) := by
  unfold lookupGroup refSide predSide
  cases bs.find? (fun e => decide (e.1 = k)) <;> rfl

/-- Predicted side of a cons bucket list. -/
theorem predSide_cons {α κ : Type} [DecidableEq κ] (k' : κ)
    (rp : List α × List α) (rest : List (κ × List α × List α)) (k : κ) :
    predSide ((k', rp) :: rest) k = if k' = k then rp.2 else predSide rest k := by
  by_cases h : k' = k <;> simp [predSide, List.find?_cons, h]

/-- Reference side of a cons bucket list. -/
theorem refSide_cons {α κ : Type} [DecidableEq κ] (k' : κ)
    (rp : List α × List α) (rest : List (κ × List α × List α)) (k : κ) :
    refSide ((k', rp) :: rest) k = if k' = k then rp.1 else refSide rest k := by
  by_cases h : k' = k <;> simp [refSide, List.find?_cons, h]

/-- Adding a reference item never touches a predicted side. -/
theorem predSide_bucketRef {α κ : Type} [DecidableEq κ]
    (eq : α → α → Bool) (key : α → κ) (bs : List (κ × List α × List α))
    (x : α) (k : κ) :
    predSide (bucketRef eq key bs x) k = predSide bs k := by
  induction bs with
  | nil =>
      by_cases h : key x = k <;>
        simp [bucketRef, predSide, List.find?_cons, h]
  | cons e rest ih =>
      obtain ⟨k', r, p⟩ := e
      by_cases h : k' = key x
      · simp [bucketRef, h, predSide_cons]
      · simp only [bucketRef, if_neg h]
        rw [predSide_cons, predSide_cons, ih]

/-- A whole reference pass never touches the predicted sides. -/
theorem predSide_foldl_bucketRef {α κ : Type} [DecidableEq κ]
    (eq : α → α → Bool) (key : α → κ) (refs : List α) :
    ∀ (bs : List (κ × List α × List α)) (k : κ),
      predSide (refs.foldl (bucketRef eq key) bs) k = predSide bs k := by
  induction refs with
  | nil => intro bs k; rfl
  | cons x xs ih =>
      intro bs k
      simp only [List.foldl_cons]
      rw [ih, predSide_bucketRef]

/-- Grouping with an empty predicted iterable leaves every predicted
side empty. -/
theorem predSide_groupBy_nil {α κ : Type} [DecidableEq κ]
    (eq : α → α → Bool) (key : α → κ) (refs : List α) (k : κ) :
    predSide (groupBy eq key refs ([] : List α)) k = [] := by
  unfold groupBy
  simp only [List.foldl_nil]
  rw [predSide_foldl_bucketRef]
  rfl

/-- `Scores.add` against an empty predicted set leaves `predicted` and
`correct` at zero. -/
theorem scoresAdd_empty_pred {α : Type} (eq : α → α → Bool) (s : Scores)
    (a : List α) (h : s.predicted = 0 ∧ s.correct = 0) :
    (Scores.add eq s a []).1.predicted = 0 ∧
    (Scores.add eq s a []).1.correct = 0 := by
  unfold Scores.add pyInter
  simp [h.1, h.2]

/-- One step of the type loop keeps `predicted` and `correct` at zero
when every predicted side of the groups is empty. -/
theorem scoreStepType_pred_zero {α σ π : Type} (I : ScoreIface α σ π)
    (inc exc : Option (List FKey)) (groups : List (String × List α × List α))
    (hg : ∀ k, predSide groups k = []) (res : List (SKey × Scores)) (t : String)
    (h : ∀ e ∈ res, e.2.predicted = 0 ∧ e.2.correct = 0) :
    ∀ e ∈ scoreStepType I inc exc groups res t,
      e.2.predicted = 0 ∧ e.2.correct = 0 := by
  unfold scoreStepType
  dsimp only
  rw [lookupGroup_eq groups t, hg t]
  dsimp only
  simp only [propsOfAnns, List.foldl_nil]
  refine foldl_preserves
    (fun res : List (SKey × Scores) =>
      ∀ e ∈ res, e.2.predicted = 0 ∧ e.2.correct = 0)
    _ ?_ _ _ ?_
  · intro b n hb
    rw [lookupGroup_eq, predSide_groupBy_nil]
    exact setScores_inv (fun s => s.predicted = 0 ∧ s.correct = 0) _ _ _ hb
      (scoresAdd_empty_pred _ _ _
        (getScores_inv (fun s => s.predicted = 0 ∧ s.correct = 0)
          ⟨rfl, rfl⟩ _ hb _))
  · split
    · exact setScores_inv (fun s => s.predicted = 0 ∧ s.correct = 0) _ _ _ h
        (scoresAdd_empty_pred _ _ _
          (getScores_inv (fun s => s.predicted = 0 ∧ s.correct = 0)
            ⟨rfl, rfl⟩ _ h _))
    · exact h

/-- With no predicted document every entry of the result has zero
`predicted` and `correct` counts. -/
theorem scoreData_pred_zero {α σ π : Type} (I : ScoreIface α σ π)
    (refs : List α) (inc exc : Option (List FKey)) :
    ∀ e ∈ scoreData I refs none inc exc,
      e.2.predicted = 0 ∧ e.2.correct = 0 := by
  unfold scoreData
  dsimp only
  refine foldl_preserves
    (fun res : List (SKey × Scores) =>
      ∀ e ∈ res, e.2.predicted = 0 ∧ e.2.correct = 0)
    _ ?_ _ _ ?_
  · intro b t hb
    exact scoreStepType_pred_zero I inc exc _
      (fun k => predSide_groupBy_nil _ _ _ _) b t hb
  · intro e he
    cases he

/-- C7.  When the predicted document is absent (`None`), `score_data`
treats the predicted collection as empty and does not fail: every key
has `predicted = 0` and `correct = 0`, and every key with a positive
reference count has `recall() = 0.0` and `precision() = 1.0`. -/
theorem c7_absent_predicted (refs : List RawAnn)
    (inc exc : Option (List FKey)) (e : SKey × Scores)
    (he : e ∈ scoreDataExact refs none inc exc) (hr : 0 < e.2.reference) :
    e.2.predicted = 0 ∧ e.2.correct = 0 ∧
    e.2.recall = 0 ∧ e.2.precision = 1 := by
  have hz := scoreData_pred_zero exactIface refs inc exc e he
  refine ⟨hz.1, hz.2, ?_, ?_⟩
  · unfold Scores.recall
    rw [if_neg hr.ne', hz.2]
    simp
  · unfold Scores.precision
    rw [if_pos hz.1]

/-- Witness for C7: scoring the one-record reference document against
an absent predicted document puts `(1,0,0)` under key `Person`. -/
theorem c7_absent_predicted_witness :
    (⟨1, 0, 0⟩ : Scores).predicted = 0 ∧ (⟨1, 0, 0⟩ : Scores).correct = 0 ∧
    Scores.recall ⟨1, 0, 0⟩ = 0 ∧ Scores.precision ⟨1, 0, 0⟩ = 1 :=
  c7_absent_predicted refC1 none none (SKey.typ "Person", ⟨1, 0, 0⟩)
    (by decide) (by decide)

/-- Adding a reference item inserts it into the reference side of its
key's bucket. -/
theorem refSide_bucketRef {α κ : Type} [DecidableEq κ]
    (eq : α → α → Bool) (key : α → κ) (bs : List (κ × List α × List α))
    (x : α) (k : κ) :
    refSide (bucketRef eq key bs x) k =
      if key x = k then pyInsert eq (refSide bs k) x else refSide bs k := by
  induction bs with
  | nil =>
      by_cases h : key x = k <;>
        simp [bucketRef, refSide, List.find?_cons, h]
  | cons e rest ih =>
      obtain ⟨k', r, p⟩ := e
      by_cases h : k' = key x
      · rw [bucketRef, if_pos h, refSide_cons, refSide_cons, ← h]
        by_cases hk : k' = k <;> simp [hk]
      · rw [bucketRef, if_neg h, refSide_cons, refSide_cons, ih]
        by_cases hk : k' = k
        · have hxk : ¬ key x = k := fun hx => h (hk.trans hx.symm)
          simp [hk, hxk]
        · simp [hk]

/-- Adding a predicted item inserts it into the predicted side of its
key's bucket. -/
theorem predSide_bucketPred {α κ : Type} [DecidableEq κ]
    (eq : α → α → Bool) (key : α → κ) (bs : List (κ × List α × List α))
    (x : α) (k : κ) :
    predSide (bucketPred eq key bs x) k =
      if key x = k then pyInsert eq (predSide bs k) x else predSide bs k := by
  induction bs with
  | nil =>
      by_cases h : key x = k <;>
        simp [bucketPred, predSide, List.find?_cons, h]
  | cons e rest ih =>
      obtain ⟨k', r, p⟩ := e
      by_cases h : k' = key x
      · rw [bucketPred, if_pos h, predSide_cons, predSide_cons, ← h]
        by_cases hk : k' = k <;> simp [hk]
      · rw [bucketPred, if_neg h, predSide_cons, predSide_cons, ih]
        by_cases hk : k' = k
        · have hxk : ¬ key x = k := fun hx => h (hk.trans hx.symm)
          simp [hk, hxk]
        · simp [hk]

/-- Adding a predicted item never touches a reference side. -/
theorem refSide_bucketPred {α κ : Type} [DecidableEq κ]
    (eq : α → α → Bool) (key : α → κ) (bs : List (κ × List α × List α))
    (x : α) (k : κ) :
    refSide (bucketPred eq key bs x) k = refSide bs k := by
  induction bs with
  | nil =>
      by_cases h : key x = k <;>
        simp [bucketPred, refSide, List.find?_cons, h]
  | cons e rest ih =>
      obtain ⟨k', r, p⟩ := e
      by_cases h : k' = key x
      · simp [bucketPred, h, refSide_cons]
      · simp only [bucketPred, if_neg h]
        rw [refSide_cons, refSide_cons, ih]

/-- The reference side under `k` after a reference pass is the fold of
the key-matching inserts. -/
theorem refSide_foldl_bucketRef {α κ : Type} [DecidableEq κ]
    (eq : α → α → Bool) (key : α → κ) (l : List α) :
    ∀ (bs : List (κ × List α × List α)) (k : κ),
      refSide (l.foldl (bucketRef eq key) bs) k =
        l.foldl (fun s x => if key x = k then pyInsert eq s x else s)
          (refSide bs k) := by
  induction l with
  | nil => intro bs k; rfl
  | cons x xs ih =>
      intro bs k
      simp only [List.foldl_cons]
      rw [ih, refSide_bucketRef]

/-- The predicted side under `k` after a predicted pass is the fold of
the key-matching inserts. -/
theorem predSide_foldl_bucketPred {α κ : Type} [DecidableEq κ]
    (eq : α → α → Bool) (key : α → κ) (l : List α) :
    ∀ (bs : List (κ × List α × List α)) (k : κ),
      predSide (l.foldl (bucketPred eq key) bs) k =
        l.foldl (fun s x => if key x = k then pyInsert eq s x else s)
          (predSide bs k) := by
  induction l with
  | nil => intro bs k; rfl
  | cons x xs ih =>
      intro bs k
      simp only [List.foldl_cons]
      rw [ih, predSide_bucketPred]

/-- A whole predicted pass never touches the reference sides. -/
theorem refSide_foldl_bucketPred {α κ : Type} [DecidableEq κ]
    (eq : α → α → Bool) (key : α → κ) (l : List α) :
    ∀ (bs : List (κ × List α × List α)) (k : κ),
      refSide (l.foldl (bucketPred eq key) bs) k = refSide bs k := by
  induction l with
  | nil => intro bs k; rfl
  | cons x xs ih =>
      intro bs k
      simp only [List.foldl_cons]
      rw [ih, refSide_bucketPred]

/-- Grouping a collection with itself builds buckets whose two sides
coincide: the predicted pass repeats the reference pass verbatim. -/
theorem groupBy_sides_self {α κ : Type} [DecidableEq κ]
    (eq : α → α → Bool) (key : α → κ) (l : List α) (k : κ) :
    refSide (groupBy eq key l l) k = predSide (groupBy eq key l l) k := by
  unfold groupBy
  rw [refSide_foldl_bucketPred, refSide_foldl_bucketRef,
    predSide_foldl_bucketPred, predSide_foldl_bucketRef]
  rfl

/-- For a reflexive element equality, intersecting a set with itself
keeps every element. -/
theorem pyInter_self_length {α : Type} (eq : α → α → Bool)
    (hrefl : ∀ x, eq x x = true) (a : List α) :
    (pyInter eq a a).length = a.length := by
  unfold pyInter
  rw [if_pos (le_refl _)]
  have hself : a.filter (fun x => pyMem eq a x) = a := by
    apply List.filter_eq_self.mpr
    intro x hx
    exact List.any_eq_true.mpr ⟨x, hx, hrefl x⟩
  rw [hself]

/-- `Scores.add` of a set against itself grows the three counters by
the same amount (for a reflexive element equality). -/
theorem scoresAdd_self {α : Type} (eq : α → α → Bool)
    (hrefl : ∀ x, eq x x = true) (s : Scores) (a : List α)
    (h : s.correct = s.reference ∧ s.correct = s.predicted) :
    (Scores.add eq s a a).1.correct = (Scores.add eq s a a).1.reference ∧
    (Scores.add eq s a a).1.correct = (Scores.add eq s a a).1.predicted := by
  unfold Scores.add
  dsimp only
  rw [pyInter_self_length eq hrefl]
  exact ⟨by rw [h.1], by rw [h.2]⟩

/-- Fact equality is reflexive when the span and value equalities are. -/
theorem factEq_refl {σ π : Type} (seq : σ → σ → Bool) (peq : π → π → Bool)
    (hs : ∀ s, seq s s = true) (hp : ∀ v, peq v v = true) :
    ∀ f : GFact σ π, factEq seq peq f f = true
  | .spanF sp n => by simp [factEq, hs]
  | .propF sp n v => by simp [factEq, hs, hp]

/-- One step of the type loop keeps `correct = reference = predicted`
when both sides of every bucket coincide and the element equalities are
reflexive. -/
theorem scoreStepType_self {α σ π : Type} (I : ScoreIface α σ π)
    (ha : ∀ x, I.aeq x x = true) (hs : ∀ s, I.seq s s = true)
    (hp : ∀ v, I.peq v v = true) (inc exc : Option (List FKey))
    (groups : List (String × List α × List α))
    (hg : ∀ k, refSide groups k = predSide groups k)
    (res : List (SKey × Scores)) (t : String)
    (h : ∀ e ∈ res, e.2.correct = e.2.reference ∧ e.2.correct = e.2.predicted) :
    ∀ e ∈ scoreStepType I inc exc groups res t,
      e.2.correct = e.2.reference ∧ e.2.correct = e.2.predicted := by
  unfold scoreStepType
  dsimp only
  rw [lookupGroup_eq groups t, ← hg t]
  dsimp only
  refine foldl_preserves
    (fun res : List (SKey × Scores) =>
      ∀ e ∈ res, e.2.correct = e.2.reference ∧ e.2.correct = e.2.predicted)
    _ ?_ _ _ ?_
  · intro b n hb
    rw [lookupGroup_eq, ← groupBy_sides_self]
    exact setScores_inv
      (fun s => s.correct = s.reference ∧ s.correct = s.predicted) _ _ _ hb
      (scoresAdd_self _ (factEq_refl I.seq I.peq hs hp) _ _
        (getScores_inv
          (fun s => s.correct = s.reference ∧ s.correct = s.predicted)
          ⟨rfl, rfl⟩ _ hb _))
  · split
    · exact setScores_inv
        (fun s => s.correct = s.reference ∧ s.correct = s.predicted) _ _ _ h
        (scoresAdd_self _ ha _ _
          (getScores_inv
            (fun s => s.correct = s.reference ∧ s.correct = s.predicted)
            ⟨rfl, rfl⟩ _ h _))
    · exact h

/-- Scoring any collection against itself (under a reflexive element
equality) gives `correct = reference = predicted` on every key. -/
theorem scoreData_self_balanced {α σ π : Type} (I : ScoreIface α σ π)
    (ha : ∀ x, I.aeq x x = true) (hs : ∀ s, I.seq s s = true)
    (hp : ∀ v, I.peq v v = true) (anns : List α)
    (inc exc : Option (List FKey)) :
    ∀ e ∈ scoreData I anns (some anns) inc exc,
      e.2.correct = e.2.reference ∧ e.2.correct = e.2.predicted := by
  unfold scoreData
  dsimp only
  refine foldl_preserves
    (fun res : List (SKey × Scores) =>
      ∀ e ∈ res, e.2.correct = e.2.reference ∧ e.2.correct = e.2.predicted)
    _ ?_ _ _ ?_
  · intro b t hb
    exact scoreStepType_self I ha hs hp inc exc _
      (fun k => groupBy_sides_self I.aeq I.typeOf anns k) b t hb
  · intro e he
    cases he

/-- C3.  Under the Exact (default, no wrapper) equivalence, every key
of `score_data(D, D)` has `correct = reference = predicted`, for every
document `D` (and any include/exclude filters). -/
theorem c3_self_score (D : List RawAnn) (inc exc : Option (List FKey))
    (e : SKey × Scores) (he : e ∈ scoreDataExact D (some D) inc exc) :
    e.2.correct = e.2.reference ∧ e.2.correct = e.2.predicted :=
  scoreData_self_balanced exactIface
    (fun x => show (x == x) = true from beq_self_eq_true' x)
    (fun s => show (s == s) = true from beq_self_eq_true s)
    (fun v => show (v == v) = true from beq_self_eq_true' v) D inc exc e he

/-- Witness for C3: the scenario reference document scored against
itself puts `(1,1,1)` under key `Person`. -/
theorem c3_self_score_witness :
    (⟨1, 1, 1⟩ : Scores).correct = (⟨1, 1, 1⟩ : Scores).reference ∧
    (⟨1, 1, 1⟩ : Scores).correct = (⟨1, 1, 1⟩ : Scores).predicted :=
  c3_self_score refC1 none none (SKey.typ "Person", ⟨1, 1, 1⟩) (by decide)

/-- Set membership survives any set insertion. -/
theorem pyMem_pyInsert_mono {α : Type} (eq : α → α → Bool) (l : List α)
    (x y : α) (h : pyMem eq l x = true) :
    pyMem eq (pyInsert eq l y) x = true := by
  unfold pyInsert
  split
  · exact h
  · unfold pyMem at h ⊢
    rw [List.any_append]
    exact Bool.or_eq_true_iff.mpr (Or.inl h)

/-- After inserting `x`, `x` is a member (for `x` equal to itself). -/
theorem pyMem_pyInsert_self {α : Type} (eq : α → α → Bool) (l : List α)
    (x : α) (hx : eq x x = true) :
    pyMem eq (pyInsert eq l x) x = true := by
  unfold pyInsert
  split
  · assumption
  · unfold pyMem
    rw [List.any_append]
    exact Bool.or_eq_true_iff.mpr (Or.inr (by simp [hx]))

/-- After folding the key-matching inserts of a list over a start set,
every element of the list with the right key is a member (as is every
member of the start set). -/
theorem pyMem_sideFold {α κ : Type} [DecidableEq κ] (eq : α → α → Bool)
    (key : α → κ) (k : κ) (x : α) (hx : eq x x = true) (hk : key x = k) :
    ∀ (l : List α) (s : List α), (x ∈ l ∨ pyMem eq s x = true) →
      pyMem eq
        (l.foldl (fun s y => if key y = k then pyInsert eq s y else s) s) x
        = true := by
  intro l
  induction l with
  | nil =>
      intro s h
      rcases h with h | h
      · cases h
      · exact h
  | cons y ys ih =>
      intro s h
      simp only [List.foldl_cons]
      rcases h with h | h
      · rcases List.mem_cons.mp h with rfl | hmem
        · refine ih _ (Or.inr ?_)
          rw [if_pos hk]
          exact pyMem_pyInsert_self eq s x hx
        · exact ih _ (Or.inl hmem)
      · refine ih _ (Or.inr ?_)
        split
        · exact pyMem_pyInsert_mono eq s x y h
        · exact h

/-- Adding a reference item that its bucket already contains changes
nothing. -/
theorem bucketRef_noop {α κ : Type} [DecidableEq κ] (eq : α → α → Bool)
    (key : α → κ) (bs : List (κ × List α × List α)) (x : α)
    (h : pyMem eq (refSide bs (key x)) x = true) :
    bucketRef eq key bs x = bs := by
  induction bs with
  | nil => simp [refSide, pyMem] at h
  | cons e rest ih =>
      obtain ⟨k', r, p⟩ := e
      rw [refSide_cons] at h
      by_cases hk : k' = key x
      · rw [if_pos hk] at h
        rw [bucketRef, if_pos hk]
        unfold pyInsert
        rw [if_pos h]
      · rw [if_neg hk] at h
        rw [bucketRef, if_neg hk, ih h]

/-- Adding a predicted item that its bucket already contains changes
nothing. -/
theorem bucketPred_noop {α κ : Type} [DecidableEq κ] (eq : α → α → Bool)
    (key : α → κ) (bs : List (κ × List α × List α)) (x : α)
    (h : pyMem eq (predSide bs (key x)) x = true) :
    bucketPred eq key bs x = bs := by
  induction bs with
  | nil => simp [predSide, pyMem] at h
  | cons e rest ih =>
      obtain ⟨k', r, p⟩ := e
      rw [predSide_cons] at h
      by_cases hk : k' = key x
      · rw [if_pos hk] at h
        rw [bucketPred, if_pos hk]
        unfold pyInsert
        rw [if_pos h]
      · rw [if_neg hk] at h
        rw [bucketPred, if_neg hk, ih h]

/-- Appending a duplicate of a reference item leaves the groups
unchanged. -/
theorem groupBy_dup_ref {α κ : Type} [DecidableEq κ] (eq : α → α → Bool)
    (key : α → κ) (refs preds : List α) (a : α) (hx : eq a a = true)
    (ha : a ∈ refs) :
    groupBy eq key (refs ++ [a]) preds = groupBy eq key refs preds := by
  unfold groupBy
  rw [List.foldl_append]
  simp only [List.foldl_cons, List.foldl_nil]
  rw [bucketRef_noop]
  rw [refSide_foldl_bucketRef]
  exact pyMem_sideFold eq key (key a) a hx rfl refs [] (Or.inl ha)

/-- Appending a duplicate of a predicted item leaves the groups
unchanged. -/
theorem groupBy_dup_pred {α κ : Type} [DecidableEq κ] (eq : α → α → Bool)
    (key : α → κ) (refs preds : List α) (b : α) (hx : eq b b = true)
    (hb : b ∈ preds) :
    groupBy eq key refs (preds ++ [b]) = groupBy eq key refs preds := by
  unfold groupBy
  rw [List.foldl_append]
  simp only [List.foldl_cons, List.foldl_nil]
  rw [bucketPred_noop]
  rw [predSide_foldl_bucketPred]
  exact pyMem_sideFold eq key (key b) b hx rfl preds _ (Or.inl hb)

/-- A Python set never stores two equal elements: inserting keeps the
stored representatives pairwise unequal (the earlier-stored element is
the left argument of `__eq__`, as in `pyMem`). -/
theorem pyInsert_pairwise {α : Type} (eq : α → α → Bool) (l : List α)
    (x : α) (h : List.Pairwise (fun u v => eq u v = false) l) :
    List.Pairwise (fun u v => eq u v = false) (pyInsert eq l x) := by
  unfold pyInsert
  split
  · exact h
  · next hmem =>
      rw [List.pairwise_append]
      refine ⟨h, List.pairwise_singleton _ _, ?_⟩
      intro u hu v hv
      rcases List.mem_singleton.mp hv with rfl
      exact Bool.eq_false_iff.mpr
        (fun hEq => hmem (List.any_eq_true.mpr ⟨u, hu, hEq⟩))

/-- The facts contributed by one record keep the fact set free of
equal pairs. -/
theorem annFacts_pairwise {α σ π : Type} (I : ScoreIface α σ π)
    (inc exc : Option (List FKey)) (acc : List (GFact σ π)) (a : α)
    (h : List.Pairwise (fun f g => factEq I.seq I.peq f g = false) acc) :
    List.Pairwise (fun f g => factEq I.seq I.peq f g = false)
      (annFacts I inc exc acc a) := by
  unfold annFacts
  dsimp only
  refine foldl_preserves
    (fun l : List (GFact σ π) =>
      List.Pairwise (fun f g => factEq I.seq I.peq f g = false) l)
    _ ?_ _ _ ?_
  · intro b pv hb
    dsimp only
    cases hst : I.strOf pv.2 with
    | none =>
        dsimp only
        split
        · exact pyInsert_pairwise _ _ _ hb
        · exact hb
    | some s =>
        dsimp only
        split
        · apply pyInsert_pairwise
          split
          · exact pyInsert_pairwise _ _ _ hb
          · exact hb
        · split
          · exact pyInsert_pairwise _ _ _ hb
          · exact hb
  · split
    · exact pyInsert_pairwise _ _ _ h
    · exact h

/-- `_props` never stores two equal facts: a fact shared by several
records (or generated twice by one record) is counted once. -/
theorem propsOfAnns_pairwise {α σ π : Type} (I : ScoreIface α σ π)
    (inc exc : Option (List FKey)) (anns : List α) :
    List.Pairwise (fun f g => factEq I.seq I.peq f g = false)
      (propsOfAnns I inc exc anns) := by
  unfold propsOfAnns
  refine foldl_preserves
    (fun l : List (GFact σ π) =>
      List.Pairwise (fun f g => factEq I.seq I.peq f g = false) l)
    _ ?_ _ _ ?_
  · intro b x hb
    exact annFacts_pairwise I inc exc b x hb
  · exact List.Pairwise.nil

/-- `score_data` only reads the two collections through the groups. -/
theorem scoreData_eq_of_groups {α σ π : Type} (I : ScoreIface α σ π)
    (refs refs' : List α) (preds preds' : List α)
    (inc exc : Option (List FKey))
    (hg : groupBy I.aeq I.typeOf refs preds = groupBy I.aeq I.typeOf refs' preds') :
    scoreData I refs (some preds) inc exc = scoreData I refs' (some preds') inc exc := by
  unfold scoreData
  dsimp only
  rw [hg]

/-- C10.  `score_data` counts distinct items, not occurrences, because
annotations and facts are grouped into sets and `Scores.add` counts set
sizes and set intersections.  Under the Exact equivalence: (i)/(ii)
appending a duplicate of an annotated record already present on the
same side leaves the whole result unchanged; (iii) the fact set built
by `_props` never stores two equal facts, whether they come from one
record or from distinct records; (iv) concretely, two distinct
same-type records sharing the span `(0,5)` contribute two to the bare
`T` reference count but only one shared span-presence fact to the
`(T, "<span>")` count. -/
theorem c10_dedup (refs preds : List RawAnn) (inc exc : Option (List FKey))
    (a b : RawAnn) :
    (a ∈ refs → scoreDataExact (refs ++ [a]) (some preds) inc exc =
      scoreDataExact refs (some preds) inc exc) ∧
    (b ∈ preds → scoreDataExact refs (some (preds ++ [b])) inc exc =
      scoreDataExact refs (some preds) inc exc) ∧
    List.Pairwise
      (fun f g => factEq exactIface.seq exactIface.peq f g = false)
      (propsOfAnns exactIface inc exc refs) ∧
    (getScores (scoreDataExact
          [.mk "T" [(0, 5)] (.cons "name" (.pstr "Alice") .nil),
           .mk "T" [(0, 5)] (.cons "name" (.pstr "Bob") .nil)]
          (some []) none none) (.typ "T") = ⟨2, 0, 0⟩ ∧
      getScores (scoreDataExact
          [.mk "T" [(0, 5)] (.cons "name" (.pstr "Alice") .nil),
           .mk "T" [(0, 5)] (.cons "name" (.pstr "Bob") .nil)]
          (some []) none none) (.tup ["T", "<span>"]) = ⟨1, 0, 0⟩) := by
  refine ⟨?_, ?_, propsOfAnns_pairwise exactIface inc exc refs,
    by decide, by decide⟩
  · intro ha
    exact scoreData_eq_of_groups exactIface _ _ _ _ inc exc
      (groupBy_dup_ref _ _ refs preds a
        (show (a == a) = true from beq_self_eq_true' a) ha)
  · intro hb
    exact scoreData_eq_of_groups exactIface _ _ _ _ inc exc
      (groupBy_dup_pred _ _ refs preds b
        (show (b == b) = true from beq_self_eq_true' b) hb)

/-- Witness for C10: duplicating the scenario records changes neither
side's result. -/
theorem c10_dedup_witness :
    scoreDataExact
        (refC1 ++ [.mk "Person" [(0, 5)] (.cons "name" (.pstr "Alice") .nil)])
        (some predC1) none none =
      scoreDataExact refC1 (some predC1) none none ∧
    scoreDataExact refC1
        (some (predC1 ++ [.mk "Person" [(0, 5)] (.cons "name" (.pstr "Bob") .nil)]))
        none none =
      scoreDataExact refC1 (some predC1) none none :=
  ⟨(c10_dedup refC1 predC1 none none
      (.mk "Person" [(0, 5)] (.cons "name" (.pstr "Alice") .nil))
      (.mk "Person" [(0, 5)] (.cons "name" (.pstr "Bob") .nil))).1 (by decide),
   (c10_dedup refC1 predC1 none none
      (.mk "Person" [(0, 5)] (.cons "name" (.pstr "Alice") .nil))
      (.mk "Person" [(0, 5)] (.cons "name" (.pstr "Bob") .nil))).2.1 (by decide)⟩

/-- C8.  The directory-pair corpus driver is *not* resilient to every
per-unit load failure: a unit whose predicted glob matches no file
raises `IndexError` inside the `except ValueError` handler
(`predicted_xml_paths[0]` on an empty list, eval.py line 224), and a
unit whose reference XML fails to load makes `score_data` dereference
`None.annotations` and raise `AttributeError` (eval.py line 154); both
abort the whole corpus run.  Only a failure of an existing predicted
file degrades that unit to an empty collection, after which the run
does continue and totals the remaining units. -/
theorem c8_load_failure_crashes :
    scoreDirs [⟨["doc.xml"], .parsed [], [], .missing⟩] none none =
      .error "IndexError" ∧
    scoreDirs [⟨["doc.xml"], .unparsable, ["doc/doc.xml"], .parsed []⟩]
        none none =
      .error "AttributeError" ∧
    scoreDirs [⟨["doc.xml"], .parsed refC1, ["doc/doc.xml"], .unparsable⟩,
               ⟨["doc2.xml"], .parsed refC1, ["doc2/doc2.xml"], .parsed refC1⟩]
        none none =
      .ok [(.typ "Person", ⟨2, 1, 1⟩),
           (.tup ["Person", "<span>"], ⟨2, 1, 1⟩),
           (.tup ["Person", "name"], ⟨2, 1, 1⟩),
           (.tup ["Person", "name", "Alice"], ⟨2, 1, 1⟩)] := by
  refine ⟨rfl, rfl, rfl⟩

/-- C4.  Under the Overlapping equivalence, two wrapped span sets
compare equal iff some span of one and some span of the other overlap
strictly (`a.start < b.end` and `b.start < a.end`); in particular
`(0,5)` and `(3,8)` are equal while `(0,5)` and `(5,10)` are not. -/
theorem c4_overlap_eq_iff :
    (∀ xs ys : List (Int × Int),
      (overlapSpansEq xs ys = true ↔
        ∃ a ∈ xs, ∃ b ∈ ys, a.1 < b.2 ∧ b.1 < a.2)) ∧
    overlapSpansEq [((0 : Int), 5)] [((3 : Int), 8)] = true ∧
    overlapSpansEq [((0 : Int), 5)] [((5 : Int), 10)] = false := by
  refine ⟨?_, ?_, ?_⟩
  · intro xs ys
    simp [overlapSpansEq, List.any_eq_true, decide_eq_true_eq]
  · decide
  · decide

/-- C5 counterexample.  The empty span list vacuously satisfies the
`start < end` precondition, yet `_OverlappingSpans([]) ==
_OverlappingSpans([])` is `False`: there is no pair of spans to
overlap, so overlap equality is not reflexive on every span list. -/
theorem c5_empty_counterexample :
    (∀ p ∈ ([] : List (Int × Int)), p.1 < p.2) ∧
    overlapSpansEq [] [] = false := by
  refine ⟨?_, rfl⟩
  intro p hp
  cases hp

/-- C5 (amended).  Overlap equality is reflexive on every nonempty span
list whose spans satisfy the assumed `start < end` precondition. -/
theorem c5_refl_amended (xs : List (Int × Int)) (hne : xs ≠ [])
    (hlt : ∀ p ∈ xs, p.1 < p.2) : overlapSpansEq xs xs = true := by
  cases xs with
  | nil => exact absurd rfl hne
  | cons a rest =>
      have ha := hlt a (List.mem_cons_self a rest)
      simp only [overlapSpansEq, List.any_eq_true]
      exact ⟨a, List.mem_cons_self a rest,
        ⟨a, List.mem_cons_self a rest, by simp [ha]⟩⟩

/-- Witness for C5 (amended) at the singleton span list `[(0,5)]`. -/
theorem c5_refl_amended_witness :
    overlapSpansEq [((0 : Int), 5)] [((0 : Int), 5)] = true :=
  c5_refl_amended [((0 : Int), 5)] (by decide) (by decide)

/-- C2 counterexample.  For `Scores(reference=1, predicted=0,
correct=0)` the vacuous precision is `1.0` and the recall is `0.0`, so
`precision() + recall() = 1 ≠ 0`, and yet `f1()` is `0.0`: `f1()` being
zero is not equivalent to `precision() + recall()` being zero. -/
theorem c2_f1_zero_counterexample :
    Scores.f1 ⟨1, 0, 0⟩ = 0 ∧
    Scores.precision ⟨1, 0, 0⟩ + Scores.recall ⟨1, 0, 0⟩ ≠ 0 := by
  norm_num [Scores.f1, Scores.precision, Scores.recall]

/-- C2 (amended).  `precision()` is `correct/predicted` for a nonzero
predicted count and `1.0` otherwise; `recall()` is `correct/reference`
for a nonzero reference count and `1.0` otherwise; `f1()` is `0.0`
whenever `precision() + recall()` is zero and otherwise equals the
harmonic mean `2*p*r/(p+r)` (which can itself be `0.0`, so the "exactly
when" of the original claim fails). -/
theorem c2_scores_formulas (s : Scores) :
    (s.predicted = 0 → s.precision = 1) ∧
    (0 < s.predicted → s.precision = (s.correct : Rat) / (s.predicted : Rat)) ∧
    (s.reference = 0 → s.recall = 1) ∧
    (0 < s.reference → s.recall = (s.correct : Rat) / (s.reference : Rat)) ∧
    (s.precision + s.recall = 0 → s.f1 = 0) ∧
    (s.precision + s.recall ≠ 0 →
      s.f1 = 2 * s.precision * s.recall / (s.precision + s.recall)) := by
  refine ⟨fun h => ?_, fun h => ?_, fun h => ?_, fun h => ?_, fun h => ?_, fun h => ?_⟩
  · simp [Scores.precision, h]
  · simp [Scores.precision, h.ne']
  · simp [Scores.recall, h]
  · simp [Scores.recall, h.ne']
  · simp [Scores.f1, h]
  · simp [Scores.f1, h]

/-- Witness for C2 (amended): each clause applied at concrete counters. -/
theorem c2_scores_formulas_witness :
    Scores.precision ⟨0, 0, 0⟩ = 1 ∧ Scores.recall ⟨0, 0, 0⟩ = 1 ∧
    Scores.precision ⟨2, 2, 1⟩ = 1 / 2 ∧ Scores.recall ⟨2, 2, 1⟩ = 1 / 2 ∧
    Scores.f1 ⟨1, 1, 0⟩ = 0 ∧ Scores.f1 ⟨0, 0, 0⟩ = 1 := by
  refine ⟨(c2_scores_formulas ⟨0, 0, 0⟩).1 rfl,
    (c2_scores_formulas ⟨0, 0, 0⟩).2.2.1 rfl,
    ((c2_scores_formulas ⟨2, 2, 1⟩).2.1 (by decide)).trans (by norm_num),
    ((c2_scores_formulas ⟨2, 2, 1⟩).2.2.2.1 (by decide)).trans (by norm_num),
    (c2_scores_formulas ⟨1, 1, 0⟩).2.2.2.2.1
      (by norm_num [Scores.precision, Scores.recall]),
    ((c2_scores_formulas ⟨0, 0, 0⟩).2.2.2.2.2
      (by norm_num [Scores.precision, Scores.recall])).trans
      (by norm_num [Scores.precision, Scores.recall])⟩

/-- C1 counterexample.  In the scenario, the two `Person` records differ
in their `name` property, so under the Exact equivalence they are not
equal and the bare key `Person` scores `(1,1,0)`, not `(1,1,1)` as
claimed (its `f1()` is `0.0`, not `1.0`). -/
theorem c1_person_counterexample :
    getScores resC1 (.typ "Person") = ⟨1, 1, 0⟩ ∧
    getScores resC1 (.typ "Person") ≠ ⟨1, 1, 1⟩ ∧
    Scores.f1 ⟨1, 1, 0⟩ = 0 := by
  refine ⟨by decide, by decide, ?_⟩
  norm_num [Scores.f1, Scores.precision, Scores.recall]

/-- C1 (amended).  In the scenario, `score_data` under the default
Exact equivalence returns exactly: key `Person` with `(1,1,0)` (f1
`0.0`), key `(Person,"<span>")` with `(1,1,1)`, key `(Person,name)`
with `(1,1,0)` (f1 `0.0`), key `(Person,name,"Alice")` with `(1,0,0)`
and key `(Person,name,"Bob")` with `(0,1,0)`. -/
theorem c1_scenario_amended :
    resC1 =
      [(.typ "Person", ⟨1, 1, 0⟩),
       (.tup ["Person", "<span>"], ⟨1, 1, 1⟩),
       (.tup ["Person", "name"], ⟨1, 1, 0⟩),
       (.tup ["Person", "name", "Alice"], ⟨1, 0, 0⟩),
       (.tup ["Person", "name", "Bob"], ⟨0, 1, 0⟩)] ∧
    Scores.f1 ⟨1, 1, 0⟩ = 0 := by
  refine ⟨by decide, ?_⟩
  norm_num [Scores.f1, Scores.precision, Scores.recall]

/-- Filtering with a stronger predicate keeps at most as many
elements. -/
theorem length_filter_mono {β : Type} (p q : β → Bool)
    (h : ∀ x, p x = true → q x = true) :
    ∀ l : List β, (l.filter p).length ≤ (l.filter q).length := by
  intro l
  induction l with
  | nil => exact Nat.le_refl 0
  | cons x xs ih =>
      rw [List.filter_cons, List.filter_cons]
      by_cases hp : p x = true
      · rw [if_pos hp, if_pos (h x hp)]
        exact Nat.succ_le_succ ih
      · rw [if_neg hp]
        by_cases hq : q x = true
        · rw [if_pos hq]
          exact Nat.le_succ_of_le ih
        · rw [if_neg hq]
          exact ih

/-- Filtering with a strictly stronger predicate (witnessed by a member
that only the weaker one accepts) keeps strictly fewer elements. -/
theorem length_filter_lt {β : Type} (p q : β → Bool)
    (h : ∀ x, p x = true → q x = true) (a : β) (hqa : q a = true)
    (hpa : p a = false) :
    ∀ l : List β, a ∈ l → (l.filter p).length < (l.filter q).length := by
  intro l
  induction l with
  | nil => intro hmem; cases hmem
  | cons x xs ih =>
      intro hmem
      rw [List.filter_cons, List.filter_cons]
      rcases List.mem_cons.mp hmem with rfl | hmem'
      · rw [if_neg (by rw [hpa]; exact Bool.false_ne_true), if_pos hqa]
        exact Nat.lt_succ_of_le (length_filter_mono p q h xs)
      · by_cases hp : p x = true
        · rw [if_pos hp, if_pos (h x hp)]
          exact Nat.succ_lt_succ (ih hmem')
        · rw [if_neg hp]
          by_cases hq : q x = true
          · rw [if_pos hq]
            exact Nat.lt_succ_of_lt (ih hmem')
          · rw [if_neg hq]
            exact ih hmem'

/-- Growing `seen` cannot grow the unseen count. -/
theorem unseenCnt_mono (store : List GAnn) {s1 s2 : List Nat}
    (h : s1 ⊆ s2) : unseenCnt store s2 ≤ unseenCnt store s1 := by
  unfold unseenCnt
  apply length_filter_mono
  intro x hx
  simp only [decide_eq_true_eq] at hx ⊢
  exact fun hmem => hx (h hmem)

/-- Adding an unseen valid index strictly shrinks the unseen count. -/
theorem unseenCnt_cons_lt (store : List GAnn) (j : Nat) (seen : List Nat)
    (hj : j < store.length) (hns : j ∉ seen) :
    unseenCnt store (j :: seen) < unseenCnt store seen := by
  unfold unseenCnt
  apply length_filter_lt _ _ ?_ j ?_ ?_ _ (List.mem_range.mpr hj)
  · intro x hx
    simp only [decide_eq_true_eq, List.mem_cons] at hx ⊢
    exact fun hmem => hx (Or.inr hmem)
  · simp [hns]
  · simp

/-- The unseen count never exceeds the store size. -/
theorem unseenCnt_le (store : List GAnn) (seen : List Nat) :
    unseenCnt store seen ≤ store.length := by
  unfold unseenCnt
  exact le_trans (List.length_filter_le _ _) (le_of_eq (List.length_range _))

/-- The property-rebuilding loop only ever grows `seen` (given that
the wrapping callback does). -/
theorem wrapProps_seen_subset
    (recAnn : Nat → List Nat → Option (WAnn × List Nat))
    (hrec : ∀ j seen w seen', recAnn j seen = some (w, seen') → seen ⊆ seen') :
    ∀ (props : List (String × GVal)) (seen : List Nat) (ps : WProps)
      (seen' : List Nat),
      wrapProps recAnn props seen = some (ps, seen') → seen ⊆ seen' := by
  intro props
  induction props with
  | nil =>
      intro seen ps seen' h
      simp only [wrapProps] at h
      cases h
      exact fun _ hx => hx
  | cons nv rest ih =>
      obtain ⟨n, v⟩ := nv
      intro seen ps seen' h
      simp only [wrapProps] at h
      split at h
      · exact ih _ _ _ h
      · cases v with
        | vann j =>
            dsimp only at h
            cases hr : recAnn j (j :: seen) with
            | none => rw [hr] at h; exact Option.noConfusion h
            | some ws =>
                obtain ⟨w, seen2⟩ := ws
                rw [hr] at h
                dsimp only at h
                cases hp2 : wrapProps recAnn rest seen2 with
                | none => rw [hp2] at h; exact Option.noConfusion h
                | some pss =>
                    obtain ⟨ps3, seen3⟩ := pss
                    rw [hp2] at h
                    dsimp only at h
                    cases h
                    exact List.Subset.trans (List.subset_cons_self j seen)
                      (List.Subset.trans (hrec _ _ _ _ hr) (ih _ _ _ hp2))
        | vstr oid s' =>
            dsimp only at h
            cases hp2 : wrapProps recAnn rest (oid :: seen) with
            | none => rw [hp2] at h; exact Option.noConfusion h
            | some pss =>
                obtain ⟨ps3, seen3⟩ := pss
                rw [hp2] at h
                dsimp only at h
                cases h
                exact List.Subset.trans (List.subset_cons_self oid seen) (ih _ _ _ hp2)
        | vnum oid m =>
            dsimp only at h
            cases hp2 : wrapProps recAnn rest (oid :: seen) with
            | none => rw [hp2] at h; exact Option.noConfusion h
            | some pss =>
                obtain ⟨ps3, seen3⟩ := pss
                rw [hp2] at h
                dsimp only at h
                cases h
                exact List.Subset.trans (List.subset_cons_self oid seen) (ih _ _ _ hp2)

/-- Wrapping a node only ever grows `seen`. -/
theorem wrapGo_seen_subset (store : List GAnn) :
    ∀ (fuel i : Nat) (seen : List Nat) (w : WAnn) (seen' : List Nat),
      wrapGo store fuel i seen = some (w, seen') → seen ⊆ seen' := by
  intro fuel
  induction fuel with
  | zero =>
      intro i seen w seen' h
      simp only [wrapGo] at h
      exact Option.noConfusion h
  | succ f ih =>
      intro i seen w seen' h
      simp only [wrapGo] at h
      cases hs : store[i]? with
      | none => rw [hs] at h; exact Option.noConfusion h
      | some a =>
          rw [hs] at h
          dsimp only at h
          cases hp : wrapProps (wrapGo store f) a.props seen with
          | none => rw [hp] at h; exact Option.noConfusion h
          | some pss =>
              obtain ⟨ps, seen2⟩ := pss
              rw [hp] at h
              dsimp only at h
              cases h
              exact wrapProps_seen_subset _ (fun j s w2 s2 hh => ih j s w2 s2 hh)
                _ _ _ _ hp

/-- With fuel at least the number of unseen store indices, the
property-rebuilding loop of a well-formed store succeeds: every
recursive wrapping step adds a fresh valid index to `seen`. -/
theorem wrapProps_isSome (store : List GAnn) (hwf : WFStore store) :
    ∀ k fuel : Nat, k ≤ fuel →
      ∀ props : List (String × GVal),
        (∀ nv ∈ props, gvalWF store.length nv.2 = true) →
        ∀ seen : List Nat, unseenCnt store seen ≤ k →
          (wrapProps (wrapGo store fuel) props seen).isSome = true := by
  intro k
  induction k using Nat.strong_induction_on with
  | _ k kih =>
      intro fuel hkf props
      induction props with
      | nil =>
          intro _ seen _
          simp [wrapProps]
      | cons nv rest pih =>
          obtain ⟨n, v⟩ := nv
          intro hp seen hcnt
          have hrest : ∀ nv ∈ rest, gvalWF store.length nv.2 = true :=
            fun nv h => hp nv (List.mem_cons_of_mem _ h)
          simp only [wrapProps]
          by_cases hmem : gvalId v ∈ seen
          · rw [if_pos hmem]
            exact pih hrest seen hcnt
          · rw [if_neg hmem]
            cases v with
            | vstr oid s' =>
                dsimp only
                have hc2 : unseenCnt store (oid :: seen) ≤ k :=
                  le_trans (unseenCnt_mono store (List.subset_cons_self oid seen)) hcnt
                have h2 := pih hrest (oid :: seen) hc2
                cases hp2 : wrapProps (wrapGo store fuel) rest (oid :: seen) with
                | none => rw [hp2] at h2; simp at h2
                | some pss =>
                    obtain ⟨ps3, s3⟩ := pss
                    rfl
            | vnum oid m =>
                dsimp only
                have hc2 : unseenCnt store (oid :: seen) ≤ k :=
                  le_trans (unseenCnt_mono store (List.subset_cons_self oid seen)) hcnt
                have h2 := pih hrest (oid :: seen) hc2
                cases hp2 : wrapProps (wrapGo store fuel) rest (oid :: seen) with
                | none => rw [hp2] at h2; simp at h2
                | some pss =>
                    obtain ⟨ps3, s3⟩ := pss
                    rfl
            | vann j =>
                dsimp only
                have hj : j < store.length := by
                  have := hp (n, GVal.vann j) (List.mem_cons_self _ _)
                  simpa [gvalWF] using this
                have hjs : j ∉ seen := by simpa [gvalId] using hmem
                have hpos : 0 < unseenCnt store seen := by
                  apply List.length_pos_of_mem
                  · exact List.mem_filter.mpr
                      ⟨List.mem_range.mpr hj, by simp [hjs]⟩
                have hk1 : 1 ≤ k := le_trans hpos hcnt
                cases fuel with
                | zero => exact absurd (le_trans hk1 hkf) (by decide)
                | succ f =>
                    have hc2 : unseenCnt store (j :: seen) ≤ k - 1 := by
                      have := unseenCnt_cons_lt store j seen hj hjs
                      omega
                    have ha : store[j]? = some (store[j]) :=
                      List.getElem?_eq_getElem hj
                    have hpj : ∀ nv ∈ (store[j]).props,
                        gvalWF store.length nv.2 = true :=
                      hwf (store[j]) (List.getElem_mem hj)
                    have hsub := kih (k - 1) (by omega) f (by omega)
                      (store[j]).props hpj (j :: seen) hc2
                    cases hp2 : wrapProps (wrapGo store f) (store[j]).props
                        (j :: seen) with
                    | none => rw [hp2] at hsub; simp at hsub
                    | some pss =>
                        obtain ⟨ps2, seen2⟩ := pss
                        have hgo : wrapGo store (f + 1) j (j :: seen) =
                            some (.mk (store[j]).type_ (store[j]).parentsType
                              (wrapGSpans (store[j]).spans) ps2, seen2) := by
                          simp only [wrapGo]
                          rw [ha]
                          dsimp only
                          rw [hp2]
                        rw [hgo]
                        dsimp only
                        have hc3 : unseenCnt store seen2 ≤ k := by
                          have hmono := unseenCnt_mono store
                            (wrapProps_seen_subset _
                              (fun j2 s2 w2 s2' hh =>
                                wrapGo_seen_subset store f j2 s2 w2 s2' hh)
                              _ _ _ _ hp2)
                          omega
                        have h3 := pih hrest seen2 hc3
                        cases hp3 : wrapProps (wrapGo store (f + 1)) rest seen2 with
                        | none => rw [hp3] at h3; simp at h3
                        | some pss3 =>
                            obtain ⟨ps4, s4⟩ := pss3
                            rfl

/-- C9 counterexample.  Wrapping node 0 of the cyclic two-node store
terminates, and the nested `q` property is wrapped recursively; but at
the point where the cycle is detected (`A` reached again through
`p`/`q`, with `id(A)` already in `seen`) the innermost wrapper simply
has *no* `p` property at all — the wrapper does not fall back to the
raw value for that property, it omits the property. -/
theorem c9_cycle_counterexample :
    wrapAnn cycStore 0 =
      some (.mk "A" "" (.ent [(0, 1)])
        (.cons "p" (.wann (.mk "B" "" (.ent [(2, 3)])
          (.cons "q" (.wann (.mk "A" "" (.ent [(0, 1)]) .nil))
            (.cons "r" (.wstr "hello") .nil)))) .nil)) ∧
    ((wrapAnn cycStore 0).bind (fun w => drillAnn w ["p", "q"])).map
      (fun w => wlookup "p" w.wprops) = some none :=
  ⟨rfl, rfl⟩

/-- C9 (amended).  When the Overlapping wrapper encounters a value
whose identity is already in the `seen` set, it terminates without
infinite recursion and omits that property from the rebuilt mapping
(rather than falling back to the raw value); non-cyclic
annotation-valued properties are wrapped recursively.  Termination:
wrapping any node of any well-formed store succeeds with the
`store.length + 1` fuel bound, because every recursive step consumes a
fresh valid index. -/
theorem c9_cycle_amended (store : List GAnn) (hwf : WFStore store)
    (i : Nat) (hi : i < store.length) :
    (wrapAnn store i).isSome = true := by
  have ha : store[i]? = some (store[i]) := List.getElem?_eq_getElem hi
  have h := wrapProps_isSome store hwf (unseenCnt store []) store.length
    (unseenCnt_le store []) (store[i]).props
    (hwf (store[i]) (List.getElem_mem hi)) [] (le_refl _)
  unfold wrapAnn
  simp only [wrapGo]
  rw [ha]
  dsimp only
  cases hp2 : wrapProps (wrapGo store store.length) (store[i]).props [] with
  | none => rw [hp2] at h; simp at h
  | some pss =>
      obtain ⟨ps, s2⟩ := pss
      rfl

/-- Witness for C9 (amended): wrapping the cyclic store succeeds. -/
theorem c9_cycle_amended_witness : (wrapAnn cycStore 0).isSome = true :=
  c9_cycle_amended cycStore (by unfold WFStore; decide) 0 (by decide)

end AnaforaEval
